import Mathlib

/-!
# Verification of the student check-in dashboard parsing/aggregation pipeline

Shallow embedding of the row-normalization and aggregation pipeline of
`src/App.tsx` (header normalization, cell coercion, header-row detection,
row parsing, unique-profile / active-check-in / weekly-bucket derivation).

Modelling conventions:
* JS strings are Lean `String`s; JS `toLowerCase`, `trim` and the regexes of the
  source are modelled character-by-character over `List Char` (ASCII case
  mapping; the JS whitespace class is modelled by `isJsWs`).
* JS `Date` instants are `Int` milliseconds since the Unix epoch.  The JS
  runtime's local timezone is modelled as UTC (the browser timezone is not part
  of the program), so `getFullYear`/`getMonth`/`getDate` coincide with their
  UTC variants.
* JS numbers are modelled as `Int`: every numeric value appearing in the
  claims and in the data model (ages, counts, serial dates, milliseconds) is
  integral, and `NaN`/non-integral parses are mapped to the same "absent"
  result the source maps them to.
* Raw cell values are `string | number | boolean | null` (plus the explicit
  `undefined` that the row materializer drops), exactly the cell type of the
  spec's input boundary, so the `value instanceof Date` branch of
  `parseDateValue` (which can never receive a `Date` cell) is not modelled.
-/

set_option maxRecDepth 4096

namespace Jsac

/-! ## JS character/string primitives -/

/-- Code-point predicate for the characters kept by the header normalizer's
`[^a-z0-9?]+` removal: lowercase ASCII letters, digits, and `?`. -/
def isAllowedChar (c : Char) : Bool :=
  (97 ≤ c.toNat ∧ c.toNat ≤ 122) ∨ (48 ≤ c.toNat ∧ c.toNat ≤ 57) ∨ c.toNat = 63

/-- The JS `\s` class / `String.prototype.trim` whitespace set
(tab, LF, VT, FF, CR, space, NBSP, Unicode spaces, BOM). -/
def isJsWs (c : Char) : Bool :=
  c.toNat = 9 ∨ c.toNat = 10 ∨ c.toNat = 11 ∨ c.toNat = 12 ∨ c.toNat = 13 ∨
  c.toNat = 32 ∨ c.toNat = 160 ∨ (8192 ≤ c.toNat ∧ c.toNat ≤ 8202) ∨
  c.toNat = 8232 ∨ c.toNat = 8233 ∨ c.toNat = 8239 ∨ c.toNat = 8287 ∨
  c.toNat = 12288 ∨ c.toNat = 65279

/-- ASCII model of JS `String.prototype.toLowerCase` at the character level. -/
def jsToLower (c : Char) : Char :=
  if 65 ≤ c.toNat ∧ c.toNat ≤ 90 then Char.ofNat (c.toNat + 32) else c

/-- JS `String.prototype.toLowerCase`. -/
def jsToLowerStr (s : String) : String :=
  String.mk (s.data.map jsToLower)

/-- JS `String.prototype.trim` on a character list: strip `\s` from both ends. -/
def trimList (l : List Char) : List Char :=
  (((l.dropWhile isJsWs).reverse.dropWhile isJsWs)).reverse

/-- JS `String.prototype.trim`. -/
def jsTrim (s : String) : String :=
  String.mk (trimList s.data)

/-- JS `a || b` on strings: the empty string is falsy. -/
def orStr (a b : String) : String :=
  if a = "" then b else a

/-- JS reading of an optional string where `undefined`/`null` are falsy
(`s ?? ''` and the falsy test coincide for `Option String` via `getD ""`
composed with `orStr`). -/
def optStr (o : Option String) : String :=
  o.getD ""

/-! ## The header normalizer (`normalizeHeaderKey`, App.tsx lines 64-71)

The source applies, in order: `toLowerCase()`, `replace(/\r?\n+/g, ' ')`,
`replace(/\(.*?\)/g, '')`, `replace(/&amp;/g, 'and')`,
`replace(/[^a-z0-9?]+/g, '')`, `trim()`. -/

/-- `replace(/\r?\n+/g, ' ')` as a left-to-right scan: state 0 is normal
scanning, state 1 means the previous character was consumed by the current
`\r?\n+` match (further `\n`s extend it), state 2 means a `\r` is pending — it
belongs to the match only if a `\n` follows, and is emitted verbatim
otherwise. -/
def collapseNewlinesAux : Nat → List Char → List Char
  | st, [] => if st = 2 then ['\r'] else []
  | st, c :: rest =>
    if c.toNat = 10 then
      if st = 1 then collapseNewlinesAux 1 rest
      else ' ' :: collapseNewlinesAux 1 rest
    else if c.toNat = 13 then
      if st = 2 then '\r' :: collapseNewlinesAux 2 rest
      else collapseNewlinesAux 2 rest
    else
      if st = 2 then '\r' :: c :: collapseNewlinesAux 0 rest
      else c :: collapseNewlinesAux 0 rest

/-- `replace(/\r?\n+/g, ' ')`. -/
def collapseNewlines (l : List Char) : List Char :=
  collapseNewlinesAux 0 l

/-- Scan for the lazily-nearest `)` of `/\(.*?\)/`: `.` does not cross the
JS line terminators LF, CR, U+2028, U+2029.  Returns the remainder after the
`)` when the match succeeds. -/
def findCloseParen : List Char → Option (List Char)
  | [] => none
  | c :: r =>
    if c.toNat = 41 then some r
    else if c.toNat = 10 ∨ c.toNat = 13 ∨ c.toNat = 8232 ∨ c.toNat = 8233 then none
    else findCloseParen r

/-- `replace(/\(.*?\)/g, '')`, fuelled by the input length (each step consumes
at least one character, so the fuel never runs out on the initial call). -/
def stripParensFuel : Nat → List Char → List Char
  | 0, l => l
  | _ + 1, [] => []
  | fuel + 1, c :: r =>
    if c.toNat = 40 then
      match findCloseParen r with
      | some r2 => stripParensFuel fuel r2
      | none => c :: stripParensFuel fuel r
    else c :: stripParensFuel fuel r

/-- `replace(/\(.*?\)/g, '')`. -/
def stripParens (l : List Char) : List Char :=
  stripParensFuel l.length l

/-- `replace(/&amp;/g, 'and')`, fuelled by the input length (each step
consumes at least one character, so the fuel never runs out on the initial
call). -/
def replaceAmpFuel : Nat → List Char → List Char
  | 0, l => l
  | _ + 1, [] => []
  | fuel + 1, c :: r =>
    if c.toNat = 38 ∧ r.take 4 = ['a', 'm', 'p', ';'] then
      'a' :: 'n' :: 'd' :: replaceAmpFuel fuel (r.drop 4)
    else c :: replaceAmpFuel fuel r

/-- `replace(/&amp;/g, 'and')`. -/
def replaceAmp (l : List Char) : List Char :=
  replaceAmpFuel l.length l

/-- `normalizeHeaderKey` (App.tsx lines 64-71). -/
def normalizeHeaderKey (s : String) : String :=
  String.mk (trimList
    (List.filter isAllowedChar
      (replaceAmp (stripParens (collapseNewlines (s.data.map jsToLower))))))

/-! ## Raw cell values

The input boundary delivers cells as `string | number | boolean | null`;
`undefined` additionally appears as the value of a property that the row
materializer would have dropped. -/

inductive RawValue where
  | str (s : String)
  | num (n : Int)
  | bool (b : Bool)
  | null
  | undef
  deriving Repr, DecidableEq

/-- JS `String(v)` for the raw cell values. -/
def jsString : RawValue → String
  | .str s => s
  | .num n => toString n
  | .bool true => "true"
  | .bool false => "false"
  | .null => "null"
  | .undef => "undefined"

/-- One decimal digit. -/
def digitVal (c : Char) : Option Nat :=
  if 48 ≤ c.toNat ∧ c.toNat ≤ 57 then some (c.toNat - 48) else none

/-- Accumulate a run of exactly the given decimal digits. -/
def natOfDigitsAux : Nat → List Char → Option Nat
  | acc, [] => some acc
  | acc, c :: r =>
    match digitVal c with
    | some d => natOfDigitsAux (acc * 10 + d) r
    | none => none

/-- JS `Number(s)` restricted to integral decimal literals (optionally signed);
all other shapes — in particular fractional literals — are mapped to the same
"absent" result that `Number.isFinite` failure produces downstream. -/
def jsStringToInt (s : String) : Option Int :=
  let t := jsTrim s
  if t = "" then some 0
  else
    match t.data with
    | '-' :: r => if r.isEmpty then none else (natOfDigitsAux 0 r).map (fun n => -(n : Int))
    | '+' :: r => if r.isEmpty then none else (natOfDigitsAux 0 r).map (fun n => (n : Int))
    | l => (natOfDigitsAux 0 l).map (fun n => (n : Int))

/-- `parseNumber` (App.tsx lines 124-130): `undefined`/`null`/`''` are absent,
otherwise `Number(value)` with non-finite results absent. -/
def parseNumber : RawValue → Option Int
  | .undef => none
  | .null => none
  | .str s => if s = "" then none else jsStringToInt s
  | .bool b => some (if b then 1 else 0)
  | .num n => some n

/-- `parseBooleanFlag` (App.tsx lines 132-160): the tri-state boolean coercer. -/
def parseBooleanFlag : RawValue → Option Bool
  | .undef => none
  | .null => none
  | .bool b => some b
  | .num n => if n = 1 then some true else if n = 0 then some false else none
  | .str s =>
    if s = "" then none
    else
      let normalized := jsToLowerStr (jsTrim s)
      if normalized = "" then none
      else if normalized ∈ ["y", "yes", "true", "adult"] then some true
      else if normalized ∈ ["n", "no", "false", "youth", "child"] then some false
      else none

/-! ## Calendar arithmetic (the JS `Date` model)

Instants are `Int` milliseconds since the Unix epoch; the runtime timezone is
modelled as UTC, so the local-component accessors used by the source coincide
with the UTC ones. -/

def msPerDay : Int := 86400000

/-- Civil date (year, month 1-12, day 1-31) of an epoch day number
(days-to-civil conversion by era decomposition). -/
def civilFromDays (z0 : Int) : Int × Int × Int :=
  let z := z0 + 719468
  let era := z.fdiv 146097
  let doe := z - era * 146097
  let yoe := (doe - doe / 1460 + doe / 36524 - doe / 146096) / 365
  let y := yoe + era * 400
  let doy := doe - (365 * yoe + yoe / 4 - yoe / 100)
  let mp := (5 * doy + 2) / 153
  let d := doy - (153 * mp + 2) / 5 + 1
  let m := mp + (if mp < 10 then 3 else -9)
  (y + (if m ≤ 2 then 1 else 0), m, d)

/-- Epoch day number of a civil date (year, month 1-12, day 1-31). -/
def daysFromCivil (y0 m d : Int) : Int :=
  let y := y0 - (if m ≤ 2 then 1 else 0)
  let era := y.fdiv 400
  let yoe := y - era * 400
  let doy := (153 * (m + (if 2 < m then -3 else 9)) + 2) / 5 + d - 1
  let doe := yoe * 365 + yoe / 4 - yoe / 100 + doy
  era * 146097 + doe - 719468

/-- JS `Date.UTC(y, mo0, d, h, mi)` with a 0-based month: out-of-range month,
day, hour and minute fields are normalized by carrying, and two-digit years
map to 1900+y, exactly as in ECMA-262 `MakeDay`/`MakeDate`. -/
def jsDateUTC (y mo0 d h mi : Int) : Int :=
  let yr := if 0 ≤ y ∧ y ≤ 99 then y + 1900 else y
  let ym := yr * 12 + mo0
  let yy := ym.fdiv 12
  let mm := ym.emod 12 + 1
  (daysFromCivil yy mm 1 + (d - 1)) * msPerDay + h * 3600000 + mi * 60000

/-- Epoch day of an instant (`floor(ms / msPerDay)`). -/
def epochDayOf (ms : Int) : Int :=
  ms.fdiv msPerDay

/-- JS `getUTCDay`: 0 = Sunday … 6 = Saturday (1970-01-01 was a Thursday). -/
def getUTCDay (ms : Int) : Int :=
  (epochDayOf ms + 4).emod 7

/-- The UTC calendar components (year, month 1-12, day) of an instant. -/
def getUTCymd (ms : Int) : Int × Int × Int :=
  civilFromDays (epochDayOf ms)

/-! ## `parseDateValue` (App.tsx lines 175-225) -/

/-- The fields captured by the regex
`/^(\d{4})-(\d{2})-(\d{2})\s+(\d{1,2}):(\d{2})\s*([AP]M)\s+([+-])(\d{2}):(\d{2})$/i`. -/
structure AmPmFields where
  year : Int
  month : Int
  day : Int
  hour : Int
  minute : Int
  isPM : Bool
  signPlus : Bool
  tzH : Int
  tzM : Int
  deriving Repr, DecidableEq

/-- Helper for `readDigits`: consume the next `n` characters as digits. -/
def readDigitsAux : Nat → Nat → List Char → Option (Nat × List Char)
  | 0, acc, l => some (acc, l)
  | _ + 1, _, [] => none
  | n + 1, acc, c :: r =>
    match digitVal c with
    | some d => readDigitsAux n (acc * 10 + d) r
    | none => none

/-- Exactly `n` decimal digits, returning their value and the remainder. -/
def readDigits (n : Nat) (l : List Char) : Option (Nat × List Char) :=
  readDigitsAux n 0 l

/-- A single expected character (by code point). -/
def expectChar (code : Nat) : List Char → Option (List Char)
  | [] => none
  | c :: r => if c.toNat = code then some r else none

/-- `\d{1,2}` followed (in the caller) by a non-digit: greedy two-digit read. -/
def readOneOrTwoDigits : List Char → Option (Nat × List Char)
  | [] => none
  | c :: r =>
    match digitVal c with
    | none => none
    | some d =>
      match r with
      | c2 :: r2 =>
        match digitVal c2 with
        | some d2 => some (d * 10 + d2, r2)
        | none => some (d, r)
      | [] => some (d, [])

/-- `\s+`: at least one JS whitespace character. -/
def skipWs1 : List Char → Option (List Char)
  | [] => none
  | c :: r => if isJsWs c then some (r.dropWhile isJsWs) else none

/-- `[AP]M` under the `i` flag: returns `true` for PM. -/
def readAmPm : List Char → Option (Bool × List Char)
  | c :: m :: r =>
    if m.toNat = 77 ∨ m.toNat = 109 then
      if c.toNat = 65 ∨ c.toNat = 97 then some (false, r)
      else if c.toNat = 80 ∨ c.toNat = 112 then some (true, r)
      else none
    else none
  | _ => none

/-- `[+-]`: returns `true` for `+`. -/
def readSign : List Char → Option (Bool × List Char)
  | [] => none
  | c :: r =>
    if c.toNat = 43 then some (true, r)
    else if c.toNat = 45 then some (false, r)
    else none

/-- The anchored match of the explicit `YYYY-MM-DD H:MM AM/PM ±HH:MM` pattern
(App.tsx lines 194-196). -/
def matchAmPm (l : List Char) : Option AmPmFields :=
  (readDigits 4 l).bind fun (y, l1) =>
  (expectChar 45 l1).bind fun l2 =>
  (readDigits 2 l2).bind fun (mo, l3) =>
  (expectChar 45 l3).bind fun l4 =>
  (readDigits 2 l4).bind fun (d, l5) =>
  (skipWs1 l5).bind fun l6 =>
  (readOneOrTwoDigits l6).bind fun (h, l7) =>
  (expectChar 58 l7).bind fun l8 =>
  (readDigits 2 l8).bind fun (mi, l9) =>
  (readAmPm (l9.dropWhile isJsWs)).bind fun (pm, l10) =>
  (skipWs1 l10).bind fun l11 =>
  (readSign l11).bind fun (sgn, l12) =>
  (readDigits 2 l12).bind fun (tzH, l13) =>
  (expectChar 58 l13).bind fun l14 =>
  (readDigits 2 l14).bind fun (tzM, l15) =>
  if l15.isEmpty then
    some ⟨(y : Int), (mo : Int), (d : Int), (h : Int), (mi : Int), pm, sgn, (tzH : Int), (tzM : Int)⟩
  else none

/-- The computation the source performs on a successful match (App.tsx lines
198-213): convert 12-hour to 24-hour, read the fields as UTC wall time, and
subtract the signed offset in minutes. -/
def amPmToUtcMs (f : AmPmFields) : Int :=
  let hour24 := if f.isPM then f.hour % 12 + 12 else f.hour % 12
  let localUtcMs := jsDateUTC f.year (f.month - 1) f.day hour24 f.minute
  let offsetMinutes := (if f.signPlus then 1 else -1) * (f.tzH * 60 + f.tzM)
  localUtcMs - offsetMinutes * 60000

/-- Modelled from the spec: stage (b) of date coercion uses
`XLSX.SSF.parse_date_code` (third-party, not under src/) — "a numeric value is
interpreted as a spreadsheet serial date (days since the epoch convention of
the source format) and converted to a calendar date at local midnight".
Serial day 0 corresponds to 1899-12-30; non-positive serials are absent. -/
def excelSerialToMs (n : Int) : Option Int :=
  if n ≤ 0 then none else some ((daysFromCivil 1899 12 30 + n) * msPerDay)

/-- Modelled from the spec: stage (d) of date coercion, the date-fns
`parseISO` parse (third-party, not under src/).  This model covers the
calendar-date form `YYYY-MM-DD` (local midnight, runtime modelled as UTC);
other ISO shapes are treated as unparsed.  No claim exercises this stage. -/
def parseISOModel (s : String) : Option Int :=
  (readDigits 4 s.data).bind fun (y, l1) =>
  (expectChar 45 l1).bind fun l2 =>
  (readDigits 2 l2).bind fun (mo, l3) =>
  (expectChar 45 l3).bind fun l4 =>
  (readDigits 2 l4).bind fun (d, l5) =>
  if l5.isEmpty ∧ 1 ≤ mo ∧ mo ≤ 12 ∧ 1 ≤ d ∧ d ≤ 31 then
    some (daysFromCivil (y : Int) (mo : Int) (d : Int) * msPerDay)
  else none

/-- Modelled from the spec: stage (e) of date coercion, the "general free-form
date-string parse" of the JS `Date` constructor (runtime built-in, not under
src/).  The spec gives no algorithm for it and no claim exercises it, so this
model treats free-form strings as unparsed (absent). -/
def freeFormDateModel (_ : String) : Option Int :=
  none

/-- `parseDateValue` (App.tsx lines 175-225).  The `value instanceof Date`
branch is not modelled because raw cells are `string | number | boolean |
null` (spec §3/§6), so it can never be taken. -/
def parseDateValue : RawValue → Option Int
  | .undef => none
  | .null => none
  | .bool _ => none
  | .num n => excelSerialToMs n
  | .str s =>
    if s = "" then none
    else
      let trimmed := jsTrim s
      if trimmed = "" then none
      else
        match matchAmPm trimmed.data with
        | some f => some (amPmToUtcMs f)
        | none =>
          match parseISOModel trimmed with
          | some ms => some ms
          | none => freeFormDateModel trimmed

/-! ## The data model and the row parser (`parseRow`, App.tsx lines 231-320) -/

/-- `StudentRecord` (App.tsx lines 30-60), restricted to the fields reachable
through `columnMap`.  `none` stands for both `undefined` and `null` (no
consumer of a record distinguishes them).  `teamNumber` is declared numeric in
the source but at runtime flows through the default text branch of the parser,
so it holds a trimmed string. -/
structure StudentRecord where
  firstName : Option String := none
  lastName : Option String := none
  studentName : Option String := none
  schoolName : Option String := none
  homeZipCode : Option String := none
  county : Option String := none
  grade : Option String := none
  gender : Option String := none
  age : Option Int := none
  firstVisitDate : Option Int := none
  siblings : Option Int := none
  parentsGuardians : Option Int := none
  careerInterest : Option String := none
  hobbies : Option String := none
  isAdult : Option Bool := none
  teamName : Option String := none
  teamNumber : Option String := none
  email : Option String := none
  checkedIn : Option Bool := none
  checkedOut : Option Bool := none
  checkInDate : Option Int := none
  checkOutDate : Option Int := none
  elapsedTime : Option Int := none
  deriving Repr, DecidableEq

/-- The semantic fields reachable through `columnMap` (App.tsx lines 73-95). -/
inductive ColumnKey where
  | studentName | schoolName | homeZipCode | county | grade | gender | age
  | firstVisitDate | siblings | parentsGuardians | careerInterest | hobbies
  | isAdult | teamName | teamNumber | email | checkedIn | checkedOut
  | checkInDate | checkOutDate | elapsedTime
  deriving Repr, DecidableEq

/-- `columnMap` (App.tsx lines 73-95): normalized header → semantic field. -/
def columnMap : String → Option ColumnKey
  | "name" => some .studentName
  | "schoolname" => some .schoolName
  | "homezipcode" => some .homeZipCode
  | "county" => some .county
  | "grade" => some .grade
  | "gender" => some .gender
  | "age" => some .age
  | "dateoffirstvisit" => some .firstVisitDate
  | "numberofsiblings" => some .siblings
  | "numberofparentsinhousehold" => some .parentsGuardians
  | "careerinterest" => some .careerInterest
  | "hobbies" => some .hobbies
  | "adult?" => some .isAdult
  | "teamname" => some .teamName
  | "teamnumber" => some .teamNumber
  | "email" => some .email
  | "checkedin" => some .checkedIn
  | "checkedout" => some .checkedOut
  | "checkindate" => some .checkInDate
  | "checkoutdate" => some .checkOutDate
  | "elapsedtime" => some .elapsedTime
  | _ => none

/-- The default (text) coercion of `parseRow`'s `switch`: `undefined`/`null`
become `undefined`; everything else is stringified and trimmed (an empty
trimmed string is stored but does not count as mapped). -/
def textCoerce (v : RawValue) : Option String :=
  match v with
  | .undef => none
  | .null => none
  | _ => some (jsTrim (jsString v))

/-- One `switch` dispatch of `parseRow` (App.tsx lines 247-306): assign the
coerced value for the mapped field onto the record. -/
def applyField (r : StudentRecord) (k : ColumnKey) (v : RawValue) : StudentRecord :=
  match k with
  | .checkedIn => { r with checkedIn := parseBooleanFlag v }
  | .checkedOut => { r with checkedOut := parseBooleanFlag v }
  | .age => { r with age := parseNumber v }
  | .siblings => { r with siblings := parseNumber v }
  | .parentsGuardians => { r with parentsGuardians := parseNumber v }
  | .firstVisitDate => { r with firstVisitDate := parseDateValue v }
  | .checkInDate => { r with checkInDate := parseDateValue v }
  | .checkOutDate => { r with checkOutDate := parseDateValue v }
  | .isAdult => { r with isAdult := parseBooleanFlag v }
  | .email => { r with email := some (jsTrim (jsString v)) }
  | .elapsedTime => { r with elapsedTime := parseNumber v }
  | .studentName => { r with studentName := textCoerce v }
  | .schoolName => { r with schoolName := textCoerce v }
  | .homeZipCode => { r with homeZipCode := textCoerce v }
  | .county => { r with county := textCoerce v }
  | .grade => { r with grade := textCoerce v }
  | .gender => { r with gender := textCoerce v }
  | .careerInterest => { r with careerInterest := textCoerce v }
  | .hobbies => { r with hobbies := textCoerce v }
  | .teamName => { r with teamName := textCoerce v }
  | .teamNumber => { r with teamNumber := textCoerce v }

/-- Whether the dispatch for field `k` on value `v` sets `hasMappedValue`
(the per-case `if` after each assignment in App.tsx lines 247-306). -/
def contributes (k : ColumnKey) (v : RawValue) : Bool :=
  match k with
  | .checkedIn => (parseBooleanFlag v).isSome
  | .checkedOut => (parseBooleanFlag v).isSome
  | .isAdult => (parseBooleanFlag v).isSome
  | .age => (parseNumber v).isSome
  | .siblings => (parseNumber v).isSome
  | .parentsGuardians => (parseNumber v).isSome
  | .elapsedTime => (parseNumber v).isSome
  | .firstVisitDate => (parseDateValue v).isSome
  | .checkInDate => (parseDateValue v).isSome
  | .checkOutDate => (parseDateValue v).isSome
  | .email => jsTrim (jsString v) ≠ ""
  | _ =>
    match textCoerce v with
    | none => false
    | some s => s ≠ ""

/-- The entry loop of `parseRow`: fold the row's `(header, value)` pairs into
the record under construction together with the `hasMappedValue` flag. -/
def parseRowAux : StudentRecord → Bool → List (String × RawValue) → StudentRecord × Bool
  | r, flag, [] => (r, flag)
  | r, flag, (key, v) :: rest =>
    let normalizedKey := normalizeHeaderKey (jsTrim key)
    if normalizedKey = "" then parseRowAux r flag rest
    else
      match columnMap normalizedKey with
      | none => parseRowAux r flag rest
      | some k => parseRowAux (applyField r k v) (flag || contributes k v) rest

/-- `[record.firstName, record.lastName].filter(Boolean).join(' ')`. -/
def joinNameParts (fn ln : Option String) : String :=
  String.intercalate " " (([fn, ln].filterMap id).filter (fun s => s ≠ ""))

/-- `parseRow` (App.tsx lines 231-320). -/
def parseRow (row : List (String × RawValue)) : Option StudentRecord :=
  let rf := parseRowAux {} false row
  let r :=
    if (optStr rf.1.studentName) = "" then
      let composite := jsTrim (joinNameParts rf.1.firstName rf.1.lastName)
      if composite ≠ "" then { rf.1 with studentName := some composite } else rf.1
    else rf.1
  if rf.2 then some r else none

/-! ## Header-row detection (App.tsx lines 433-463) -/

/-- The stringified, trimmed, non-empty labels of a candidate header row
(string and number cells only). -/
def rowLabels (row : List RawValue) : List String :=
  (row.map (fun c =>
    match c with
    | .str s => jsTrim s
    | .num n => jsTrim (toString n)
    | _ => "")).filter (fun s => s ≠ "")

/-- The number of labels of a row that normalize to a recognized field. -/
def rowScore (row : List RawValue) : Nat :=
  (rowLabels row).foldl
    (fun count label =>
      let normalized := normalizeHeaderKey label
      if normalized = "" then count
      else if (columnMap normalized).isSome then count + 1 else count)
    0

/-- The scanning loop of the detector: current index, best score (starting at
`-1`), best index (starting at `0`); only a strictly greater score of at least
2 displaces the best row. -/
def detectHeaderAux : List (List RawValue) → Nat → Int → Nat → Nat
  | [], _, _, bestIdx => bestIdx
  | row :: rest, i, best, bestIdx =>
    if (rowLabels row).isEmpty then detectHeaderAux rest (i + 1) best bestIdx
    else
      let score : Int := rowScore row
      if best < score ∧ 2 ≤ score then detectHeaderAux rest (i + 1) score i
      else detectHeaderAux rest (i + 1) best bestIdx

/-- The header-row index chosen by `handleFileUpload` (App.tsx lines 433-463). -/
def detectHeaderIndex (rows : List (List RawValue)) : Nat :=
  detectHeaderAux rows 0 (-1) 0

/-! ## Insertion-ordered maps (the JS `Map`) as association lists -/

/-- JS `Map.get`. -/
def lookupA {κ α : Type} [DecidableEq κ] (k : κ) : List (κ × α) → Option α
  | [] => none
  | (k2, v) :: rest => if k = k2 then some v else lookupA k rest

/-- JS `Map.set`: replace in place when the key exists, else append. -/
def setA {κ α : Type} [DecidableEq κ] (m : List (κ × α)) (k : κ) (v : α) : List (κ × α) :=
  match m with
  | [] => [(k, v)]
  | (k2, v2) :: rest => if k = k2 then (k2, v) :: rest else (k2, v2) :: setA rest k v

/-! ## Unique student profiles (`uniqueProfiles`, App.tsx lines 523-549) -/

/-- The derived `Profile` (App.tsx lines 514-522). -/
structure Profile where
  name : String
  county : Option String := none
  homeZipCode : Option String := none
  schoolName : Option String := none
  age : Option Int := none
  grade : Option String := none
  gender : Option String := none
  deriving Repr, DecidableEq

/-- `(s.studentName || `fn ln`).trim()`: the display name of a record. -/
def profileName (s : StudentRecord) : String :=
  jsTrim (orStr (optStr s.studentName) (optStr s.firstName ++ " " ++ optStr s.lastName))

/-- The composite profile key (App.tsx lines 532-534): the lowercased name,
the stringified age (twice, once lowercased), the team name **verbatim**, and
the team number, joined by `|`. -/
def profileKey (s : StudentRecord) : String :=
  jsToLowerStr (profileName s) ++ "|" ++
  (match s.age with | none => "" | some a => jsToLowerStr (jsTrim (toString a))) ++ "|" ++
  (match s.age with | none => "" | some a => toString a) ++ "|" ++
  optStr s.teamName ++ "|" ++ optStr s.teamNumber

/-- The profile stored for a record (App.tsx lines 537-545). -/
def mkProfile (s : StudentRecord) : Profile :=
  { name := profileName s
    county := s.county
    homeZipCode := s.homeZipCode
    schoolName := s.schoolName
    age := s.age
    grade := s.grade
    gender := s.gender }

/-- The guards of the `uniqueProfiles` loop: a non-empty name, a (valid)
check-in date, and a key that is non-empty once the `|` separators are
stripped. -/
def profileEligible (s : StudentRecord) : Bool :=
  profileName s ≠ "" && (s.checkInDate).isSome &&
    String.mk ((profileKey s).data.filter (fun c => c ≠ '|')) ≠ ""

/-- The `uniqueProfiles` loop over the record list (first-write-wins). -/
def uniqueProfilesAux : List (String × Profile) → List StudentRecord → List (String × Profile)
  | m, [] => m
  | m, s :: rest =>
    if profileEligible s then
      let key := profileKey s
      if (lookupA key m).isSome then uniqueProfilesAux m rest
      else uniqueProfilesAux (m ++ [(key, mkProfile s)]) rest
    else uniqueProfilesAux m rest

/-- `uniqueProfiles` (App.tsx lines 523-549) as an insertion-ordered map. -/
def uniqueProfiles (students : List StudentRecord) : List (String × Profile) :=
  uniqueProfilesAux [] students

/-! ## Active check-ins (`activeCheckIns`, App.tsx lines 715-763) -/

/-- One retained active check-in entry. -/
structure Entry where
  id : String
  name : String
  email : Option String := none
  teamName : Option String := none
  teamNumber : Option String := none
  checkInDate : Option Int := none
  deriving Repr, DecidableEq

/-- `(r.email || r.studentName || `fn ln`).trim().toLowerCase()`: the
deduplication key of a record. -/
def recordId (r : StudentRecord) : String :=
  jsToLowerStr (jsTrim
    (orStr (optStr r.email)
      (orStr (optStr r.studentName) (optStr r.firstName ++ " " ++ optStr r.lastName))))

/-- The displayed name of an entry (App.tsx lines 748-752): note the composite
`` `fn ln` `` contains a space and hence is always truthy. -/
def entryName (r : StudentRecord) : String :=
  orStr (optStr r.studentName)
    (orStr (optStr r.firstName ++ " " ++ optStr r.lastName)
      (orStr (optStr r.email) "Unknown"))

/-- The entry stored for a record under its key. -/
def mkEntry (r : StudentRecord) : Entry :=
  { id := recordId r
    name := entryName r
    email := r.email
    teamName := r.teamName
    teamNumber := r.teamNumber
    checkInDate := r.checkInDate }

/-- The displacement test (App.tsx lines 741-745) against an existing entry:
`(ci && existing.checkInDate && ci > existing.checkInDate) ||
(!existing.checkInDate && ci)`. -/
def displaces (ci existing : Option Int) : Bool :=
  match ci, existing with
  | some c, some e => e < c
  | some _, none => true
  | none, _ => false

/-- The record-level guards of the loop: `checkedIn === true`,
`checkedOut !== true`, and a non-empty key. -/
def activeQualifies (r : StudentRecord) : Bool :=
  r.checkedIn == some true && !(r.checkedOut == some true) && recordId r ≠ ""

/-- The `activeCheckIns` fold over the record list. -/
def activeCheckInsAux : List (String × Entry) → List StudentRecord → List (String × Entry)
  | m, [] => m
  | m, r :: rest =>
    if activeQualifies r then
      match lookupA (recordId r) m with
      | none => activeCheckInsAux (setA m (recordId r) (mkEntry r)) rest
      | some existing =>
        if displaces r.checkInDate existing.checkInDate then
          activeCheckInsAux (setA m (recordId r) (mkEntry r)) rest
        else activeCheckInsAux m rest
    else activeCheckInsAux m rest

/-- The keyed map of retained active check-ins (the source additionally sorts
`latestByKey.values()` by display name for presentation; the claims are about
the retained entries, which the sort does not change). -/
def activeCheckInsMap (students : List StudentRecord) : List (String × Entry) :=
  activeCheckInsAux [] students

/-! ## Weekly activity buckets (`getWeekRange`/`weekCounts`, App.tsx 663-703) -/

/-- The week-start instant of an instant (App.tsx lines 678-685): re-anchor
the calendar date to UTC midnight, then move back by `getUTCDay() || 7` minus
one days. -/
def weekStartMs (ms : Int) : Int :=
  let y := (getUTCymd ms).1
  let mo := (getUTCymd ms).2.1
  let d := (getUTCymd ms).2.2
  let dateMs := jsDateUTC y (mo - 1) d 0 0
  let dayNum := if getUTCDay dateMs = 0 then 7 else getUTCDay dateMs
  dateMs + (1 - dayNum) * msPerDay

/-- `M/D/YYYY` of an instant's UTC calendar date. -/
def fmtMDY (ms : Int) : String :=
  let y := (getUTCymd ms).1
  let mo := (getUTCymd ms).2.1
  let d := (getUTCymd ms).2.2
  s!"{mo}/{d}/{y}"

/-- `getWeekRange` (App.tsx lines 663-673). -/
def getWeekRange (ms : Int) : String :=
  let start := weekStartMs ms
  fmtMDY start ++ " - " ++ fmtMDY (start + 6 * msPerDay)

/-- JS `Map.set(key, (get(key) ?? 0) + 1)`. -/
def bumpA {κ : Type} [DecidableEq κ] : List (κ × Nat) → κ → List (κ × Nat)
  | [], k => [(k, 1)]
  | (k2, c) :: rest, k => if k = k2 then (k2, c + 1) :: rest else (k2, c) :: bumpA rest k

/-- Ascending insertion by `Int` key (the `sort(([a],[b]) => a - b)`). -/
def insertByKey (p : Int × Nat) : List (Int × Nat) → List (Int × Nat)
  | [] => [p]
  | q :: rest => if p.1 < q.1 then p :: q :: rest else q :: insertByKey p rest

/-- Sort an association list ascending by `Int` key. -/
def sortByKey : List (Int × Nat) → List (Int × Nat)
  | [] => []
  | p :: rest => insertByKey p (sortByKey rest)

/-- `weekCounts` (App.tsx lines 675-703): bucket every record's `checkInDate`
by its week-start instant, sort buckets chronologically, and label each with
`getWeekRange`. -/
def weekCounts (students : List StudentRecord) : List (String × Nat) :=
  let weekMap := students.foldl
    (fun m r =>
      match r.checkInDate with
      | some ms => bumpA m (weekStartMs ms)
      | none => m)
    []
  (sortByKey weekMap).map (fun p => (getWeekRange p.1, p.2))

/-! ## Lemmas about the header normalizer -/

theorem dropWhile_id_of_not {p : Char → Bool} {l : List Char}
    (h : ∀ c ∈ l, p c = false) : l.dropWhile p = l := by
  cases l with
  | nil => rfl
  | cons c r => simp [List.dropWhile_cons, h c (by simp)]

theorem mem_of_mem_dropWhile {p : Char → Bool} {c : Char} :
    ∀ {l : List Char}, c ∈ l.dropWhile p → c ∈ l := by
  intro l
  induction l with
  | nil => simp
  | cons d r ih =>
    intro h
    rw [List.dropWhile_cons] at h
    by_cases hp : p d
    · simp [hp] at h
      exact List.mem_cons_of_mem d (ih h)
    · simpa [hp] using h

theorem mem_of_mem_trimList {c : Char} {l : List Char} (h : c ∈ trimList l) : c ∈ l := by
  unfold trimList at h
  rw [List.mem_reverse] at h
  have h2 := mem_of_mem_dropWhile h
  rw [List.mem_reverse] at h2
  exact mem_of_mem_dropWhile h2

theorem trimList_id {l : List Char} (h : ∀ c ∈ l, isJsWs c = false) : trimList l = l := by
  unfold trimList
  rw [dropWhile_id_of_not h]
  rw [dropWhile_id_of_not (fun c hc => h c (List.mem_reverse.mp hc))]
  exact List.reverse_reverse l

/-- The character facts needed for idempotence: an allowed character is fixed
by lowering and is none of the characters the other stages react to. -/
theorem allowed_char_facts {c : Char} (h : isAllowedChar c = true) :
    jsToLower c = c ∧ c.toNat ≠ 10 ∧ c.toNat ≠ 13 ∧ c.toNat ≠ 40 ∧ c.toNat ≠ 38 ∧
      isJsWs c = false := by
  simp only [isAllowedChar, decide_eq_true_eq] at h
  refine ⟨?_, by omega, by omega, by omega, by omega, ?_⟩
  · unfold jsToLower
    rw [if_neg]
    omega
  · simp only [isJsWs, decide_eq_false_iff_not]
    omega

theorem map_jsToLower_id {l : List Char} (h : ∀ c ∈ l, isAllowedChar c = true) :
    l.map jsToLower = l := by
  induction l with
  | nil => rfl
  | cons c r ih =>
    simp only [List.map_cons]
    rw [(allowed_char_facts (h c (by simp))).1, ih (fun d hd => h d (by simp [hd]))]

theorem collapseNewlinesAux_id {l : List Char}
    (h : ∀ c ∈ l, c.toNat ≠ 10 ∧ c.toNat ≠ 13) : collapseNewlinesAux 0 l = l := by
  induction l with
  | nil => rfl
  | cons c r ih =>
    have hc := h c (by simp)
    rw [collapseNewlinesAux, if_neg hc.1, if_neg hc.2,
      if_neg (by omega : ¬(0 : Nat) = 2), ih (fun d hd => h d (by simp [hd]))]

theorem collapseNewlines_id {l : List Char}
    (h : ∀ c ∈ l, c.toNat ≠ 10 ∧ c.toNat ≠ 13) : collapseNewlines l = l :=
  collapseNewlinesAux_id h

theorem stripParensFuel_id (fuel : Nat) {l : List Char}
    (h : ∀ c ∈ l, c.toNat ≠ 40) : stripParensFuel fuel l = l := by
  induction fuel generalizing l with
  | zero => rfl
  | succ n ih =>
    cases l with
    | nil => rfl
    | cons c r =>
      rw [stripParensFuel, if_neg (h c (by simp)), ih (fun d hd => h d (by simp [hd]))]

theorem stripParens_id {l : List Char} (h : ∀ c ∈ l, c.toNat ≠ 40) :
    stripParens l = l :=
  stripParensFuel_id l.length h

theorem replaceAmpFuel_id (fuel : Nat) {l : List Char} (h : ∀ c ∈ l, c.toNat ≠ 38) :
    replaceAmpFuel fuel l = l := by
  induction fuel generalizing l with
  | zero => rfl
  | succ n ih =>
    cases l with
    | nil => rfl
    | cons c r =>
      rw [replaceAmpFuel, if_neg (fun hand => h c (by simp) hand.1),
        ih (fun d hd => h d (by simp [hd]))]

theorem replaceAmp_id {l : List Char} (h : ∀ c ∈ l, c.toNat ≠ 38) :
    replaceAmp l = l :=
  replaceAmpFuel_id l.length h

/-- Every character of a normalized header key is in the allowed class. -/
theorem normalizeHeaderKey_chars {s : String} {c : Char}
    (h : c ∈ (normalizeHeaderKey s).data) : isAllowedChar c = true := by
  unfold normalizeHeaderKey at h
  exact List.of_mem_filter (mem_of_mem_trimList h)

/-- **C9.** Header normalization is idempotent: normalizing an
already-normalized key returns it unchanged. -/
theorem normalizeHeaderKey_idempotent (s : String) :
    normalizeHeaderKey (normalizeHeaderKey s) = normalizeHeaderKey s := by
  have hall : ∀ c ∈ (normalizeHeaderKey s).data, isAllowedChar c = true :=
    fun c hc => normalizeHeaderKey_chars hc
  show String.mk (trimList (List.filter isAllowedChar (replaceAmp (stripParens
    (collapseNewlines ((normalizeHeaderKey s).data.map jsToLower)))))) = _
  rw [map_jsToLower_id hall]
  rw [collapseNewlines_id (fun c hc =>
    ⟨(allowed_char_facts (hall c hc)).2.1, (allowed_char_facts (hall c hc)).2.2.1⟩)]
  rw [stripParens_id (fun c hc => (allowed_char_facts (hall c hc)).2.2.2.1)]
  rw [replaceAmp_id (fun c hc => (allowed_char_facts (hall c hc)).2.2.2.2.1)]
  rw [List.filter_eq_self.mpr hall]
  rw [trimList_id (fun c hc => (allowed_char_facts (hall c hc)).2.2.2.2.2)]

/-! ## Lemmas about the row parser -/

/-- Whether one `(header, value)` pair of a row maps to a recognized field and
coerces to a value that counts as mapped. -/
def recognizedContributes (kv : String × RawValue) : Bool :=
  match columnMap (normalizeHeaderKey (jsTrim kv.1)) with
  | some k => contributes k kv.2
  | none => false

theorem parseRowAux_flag (row : List (String × RawValue)) (r : StudentRecord) (flag : Bool) :
    (parseRowAux r flag row).2 = (flag || row.any recognizedContributes) := by
  induction row generalizing r flag with
  | nil => simp [parseRowAux]
  | cons kv rest ih =>
    obtain ⟨key, v⟩ := kv
    rw [parseRowAux]
    by_cases hk : normalizeHeaderKey (jsTrim key) = ""
    · rw [if_pos hk, ih]
      have hc : recognizedContributes (key, v) = false := by
        simp only [recognizedContributes, hk]
        rfl
      simp [List.any_cons, hc]
    · rw [if_neg hk]
      cases hcm : columnMap (normalizeHeaderKey (jsTrim key)) with
      | none =>
        show (parseRowAux r flag rest).2 = _
        rw [ih]
        have hc : recognizedContributes (key, v) = false := by
          simp [recognizedContributes, hcm]
        simp [List.any_cons, hc]
      | some k =>
        show (parseRowAux (applyField r k v) (flag || contributes k v) rest).2 = _
        rw [ih]
        have hc : recognizedContributes (key, v) = contributes k v := by
          simp [recognizedContributes, hcm]
        simp [List.any_cons, hc, Bool.or_assoc]

theorem parseRow_isSome (row : List (String × RawValue)) :
    (parseRow row).isSome = row.any recognizedContributes := by
  have hf := parseRowAux_flag row {} false
  rw [Bool.false_or] at hf
  simp only [parseRow]
  cases h2 : (parseRowAux {} false row).2 with
  | false => rw [h2] at hf; simp [← hf]
  | true => rw [h2] at hf; simp [← hf]

/-- **C8.** Row parsing is total (=never raises): it returns a record exactly
when at least one recognized field coerced to a value that counts as mapped,
and `null` otherwise; in particular a row in which every cell maps to an
unrecognized header yields no record. -/
theorem parseRow_retained_iff :
    (∀ row, (parseRow row).isSome = row.any recognizedContributes) ∧
    (∀ row, (∀ kv ∈ row, columnMap (normalizeHeaderKey (jsTrim kv.1)) = none) →
      parseRow row = none) := by
  refine ⟨parseRow_isSome, fun row h => ?_⟩
  have hany : row.any recognizedContributes = false := by
    rw [List.any_eq_false]
    intro kv hkv
    simp [recognizedContributes, h kv hkv]
  have h2 := parseRow_isSome row
  rw [hany] at h2
  rw [← Option.not_isSome_iff_eq_none]
  simp [h2]

/-- Witness for C8: a one-cell row under an unrecognized header is dropped. -/
theorem parseRow_retained_iff_witness :
    parseRow [("Favorite Color", RawValue.str "blue")] = none :=
  parseRow_retained_iff.2 [("Favorite Color", RawValue.str "blue")] (by decide)

/-- **C10.** A successfully coerced tri-state boolean `false` counts as a
mapped value: a row whose only recognized cell is a boolean-flag field
(`checkedIn`, `checkedOut` or `isAdult`) coercing to `false` is retained. -/
theorem booleanFalse_row_retained :
    ∀ (hdr : String) (v : RawValue) (k : ColumnKey),
      columnMap (normalizeHeaderKey (jsTrim hdr)) = some k →
      (k = ColumnKey.checkedIn ∨ k = ColumnKey.checkedOut ∨ k = ColumnKey.isAdult) →
      parseBooleanFlag v = some false →
      (parseRow [(hdr, v)]).isSome = true := by
  intro hdr v k hmap hk hflag
  rw [parseRow_isSome]
  simp only [List.any_cons, List.any_nil, Bool.or_false]
  simp only [recognizedContributes, hmap]
  rcases hk with h | h | h <;> subst h <;> simp [contributes, hflag]

/-- Witness for C10: the string `"no"` under the `Checked In` header retains
the row. -/
theorem booleanFalse_row_retained_witness :
    (parseRow [("Checked In", RawValue.str "no")]).isSome = true :=
  booleanFalse_row_retained "Checked In" (RawValue.str "no") ColumnKey.checkedIn
    (by decide) (Or.inl rfl) (by decide)

/-- **C5 counterexample.** For the `email` field, coercing a `null` raw cell
does *not* yield absent: `String(null)` produces the literal string `"null"`,
which is stored and counts toward `hasMappedValue`, so the row is retained. -/
theorem email_null_counterexample :
    parseRow [("email", RawValue.null)] = some { email := some "null" } ∧
      (parseRow [("email", RawValue.null)]).isSome = true := by
  decide

/-- **C5 amended.** For the default-type text fields (everything the `switch`
sends to the default branch — name, school, zip, county, grade, gender, career
interest, hobbies, team name, team number), coercing an absent (`null` or
`undefined`) raw cell yields absent and does not count toward presence
tracking; the `email` field instead stringifies absent values. -/
theorem textField_absent_is_absent :
    ∀ (hdr : String) (k : ColumnKey),
      columnMap (normalizeHeaderKey (jsTrim hdr)) = some k →
      (k = ColumnKey.studentName ∨ k = ColumnKey.schoolName ∨ k = ColumnKey.homeZipCode ∨
        k = ColumnKey.county ∨ k = ColumnKey.grade ∨ k = ColumnKey.gender ∨
        k = ColumnKey.careerInterest ∨ k = ColumnKey.hobbies ∨ k = ColumnKey.teamName ∨
        k = ColumnKey.teamNumber) →
      parseRow [(hdr, RawValue.null)] = none ∧ parseRow [(hdr, RawValue.undef)] = none := by
  intro hdr k hmap hk
  constructor <;>
  · rw [← Option.not_isSome_iff_eq_none, parseRow_isSome]
    simp only [List.any_cons, List.any_nil, Bool.or_false]
    simp only [recognizedContributes, hmap]
    rcases hk with h | h | h | h | h | h | h | h | h | h <;> subst h <;>
      simp [contributes, textCoerce]

/-- Witness for the amended C5: a lone `null` county cell yields no record. -/
theorem textField_absent_is_absent_witness :
    parseRow [("County", RawValue.null)] = none ∧
      parseRow [("County", RawValue.undef)] = none :=
  textField_absent_is_absent "County" ColumnKey.county (by decide) (by decide)

/-! ## C3: the explicit `YYYY-MM-DD H:MM AM/PM ±HH:MM` date format -/

/-- **C3.** A string matching the explicit AM/PM-with-offset pattern is
coerced by converting the 12-hour clock to 24-hour, treating the numeric
fields as UTC-based wall time (`Date.UTC`), and subtracting the stated offset
in minutes; in particular `"2024-03-15 2:30PM -04:00"` coerces to the UTC
instant 2024-03-15T18:30:00Z (= 1710527400000 ms). -/
theorem parseDateValue_ampm_offset :
    (∀ (s : String) (f : AmPmFields), matchAmPm (jsTrim s).data = some f →
      parseDateValue (.str s) =
        some (jsDateUTC f.year (f.month - 1) f.day
            (if f.isPM then f.hour % 12 + 12 else f.hour % 12) f.minute -
          (if f.signPlus then 1 else -1) * (f.tzH * 60 + f.tzM) * 60000)) ∧
    parseDateValue (.str "2024-03-15 2:30PM -04:00") = some 1710527400000 := by
  constructor
  · intro s f h
    have hs : s ≠ "" := by
      intro he
      rw [he] at h
      exact Option.noConfusion h
    have ht : jsTrim s ≠ "" := by
      intro he
      rw [he] at h
      exact Option.noConfusion h
    rw [parseDateValue, if_neg hs, if_neg ht, h]
    rfl
  · decide

/-- Witness for C3: the main theorem applied to the spec's example string. -/
theorem parseDateValue_ampm_offset_witness :
    parseDateValue (.str "2024-03-15 2:30PM -04:00") =
      some (jsDateUTC 2024 (3 - 1) 15 (if true then 2 % 12 + 12 else 2 % 12) 30 -
        (if false then 1 else -1) * (4 * 60 + 0) * 60000) :=
  parseDateValue_ampm_offset.1 "2024-03-15 2:30PM -04:00"
    ⟨2024, 3, 15, 2, 30, true, false, 4, 0⟩ (by decide)

/-! ## C7: header-row detection -/

/-- The score of a row as an integer. -/
def rowScoreI (row : List RawValue) : Int :=
  (rowScore row : Int)

/-- The greatest row score of a sheet (0 when empty). -/
def maxScore : List (List RawValue) → Int
  | [] => 0
  | row :: rest => max (rowScoreI row) (maxScore rest)

/-- The index of the first row attaining a given score. -/
def firstMaxIdx : List (List RawValue) → Int → Nat
  | [], _ => 0
  | row :: rest, m => if rowScoreI row = m then 0 else firstMaxIdx rest m + 1

/-- The claim's description of the detector: the row with the greatest number
of recognized fields, provided that count is at least 2, defaulting to row
index 0 otherwise, ties keeping the earliest-seen row. -/
def specHeaderIndex (rows : List (List RawValue)) : Nat :=
  if maxScore rows < 2 then 0 else firstMaxIdx rows (maxScore rows)

theorem maxScore_nonneg (rows : List (List RawValue)) : 0 ≤ maxScore rows := by
  induction rows with
  | nil => exact le_refl 0
  | cons row rest ih => exact le_trans ih (le_max_right _ _)

theorem rowScore_of_empty_labels {row : List RawValue}
    (h : (rowLabels row).isEmpty = true) : rowScoreI row = 0 := by
  rw [List.isEmpty_iff] at h
  rw [rowScoreI, rowScore, h]
  rfl

theorem detectHeaderAux_spec (rows : List (List RawValue)) :
    ∀ (i bestIdx : Nat) (best : Int),
      detectHeaderAux rows i best bestIdx =
        if best < maxScore rows ∧ 2 ≤ maxScore rows then
          i + firstMaxIdx rows (maxScore rows)
        else bestIdx := by
  induction rows with
  | nil =>
    intro i bestIdx best
    rw [detectHeaderAux, maxScore, if_neg (by omega)]
  | cons row rest ih =>
    intro i bestIdx best
    have hMr : 0 ≤ maxScore rest := maxScore_nonneg rest
    have hs0 : 0 ≤ rowScoreI row := Int.ofNat_nonneg _
    rw [detectHeaderAux, maxScore]
    by_cases hemp : (rowLabels row).isEmpty
    · rw [if_pos hemp, ih]
      have hz : rowScoreI row = 0 := rowScore_of_empty_labels hemp
      rw [hz, max_eq_right hMr]
      by_cases hcond : best < maxScore rest ∧ 2 ≤ maxScore rest
      · rw [if_pos hcond, if_pos hcond, firstMaxIdx, hz, if_neg (by omega), ]
        omega
      · rw [if_neg hcond, if_neg hcond]
    · rw [if_neg hemp]
      show (if best < rowScoreI row ∧ 2 ≤ rowScoreI row then
          detectHeaderAux rest (i + 1) (rowScoreI row) i
        else detectHeaderAux rest (i + 1) best bestIdx) = _
      by_cases hsel : best < rowScoreI row ∧ 2 ≤ rowScoreI row
      · rw [if_pos hsel, ih]
        by_cases hgt : rowScoreI row < maxScore rest
        · rw [if_pos ⟨hgt, by omega⟩, max_eq_right (le_of_lt hgt),
            if_pos ⟨by omega, by omega⟩, firstMaxIdx, if_neg (by omega)]
          omega
        · rw [if_neg (fun hc => hgt hc.1), max_eq_left (by omega),
            if_pos ⟨hsel.1, hsel.2⟩, firstMaxIdx, if_pos rfl]
          omega
      · rw [if_neg hsel, ih]
        by_cases hcond : best < maxScore rest ∧ 2 ≤ maxScore rest
        · have hne : rowScoreI row ≠ maxScore rest ⊔ maxScore rest := by omega
          have hlt : rowScoreI row < maxScore rest := by
            rcases lt_or_ge (rowScoreI row) (maxScore rest) with h | h
            · exact h
            · exfalso
              have : maxScore rest ≤ rowScoreI row := h
              omega
          rw [max_eq_right (le_of_lt hlt), if_pos hcond, if_pos hcond,
            firstMaxIdx, if_neg (by omega)]
          omega
        · rw [if_neg hcond]
          rw [if_neg (fun hc => ?_)]
          rcases le_or_lt (rowScoreI row) (maxScore rest) with h | h
          · rw [max_eq_right h] at hc
            exact hcond hc
          · rw [max_eq_left (le_of_lt h)] at hc
            exact hsel hc

/-- **C7.** The header-row detector selects the row with the greatest number
of recognized normalized headers, provided that count is at least 2
(defaulting to row index 0), ties keeping the earliest row; in particular a
banner row with 0 recognized headers followed by a row with 5 recognized
headers selects index 1. -/
theorem detectHeaderIndex_spec :
    (∀ rows, detectHeaderIndex rows = specHeaderIndex rows) ∧
    detectHeaderIndex [[RawValue.str "Student Activity Report"],
      [RawValue.str "Name", RawValue.str "County", RawValue.str "Grade",
        RawValue.str "Gender", RawValue.str "Age"]] = 1 := by
  constructor
  · intro rows
    rw [detectHeaderIndex, specHeaderIndex, detectHeaderAux_spec]
    have hM := maxScore_nonneg rows
    by_cases h : 2 ≤ maxScore rows
    · rw [if_pos ⟨by omega, h⟩, if_neg (by omega)]
      omega
    · rw [if_neg (fun hc => h hc.2), if_pos (by omega)]
  · decide

/-! ## C6 and C2: unique profiles -/

theorem lookupA_append {κ α : Type} [DecidableEq κ] (k : κ) (m1 m2 : List (κ × α)) :
    lookupA k (m1 ++ m2) =
      match lookupA k m1 with
      | some v => some v
      | none => lookupA k m2 := by
  induction m1 with
  | nil => rfl
  | cons p rest ih =>
    obtain ⟨k2, v2⟩ := p
    rw [List.cons_append, lookupA, lookupA]
    by_cases h : k = k2
    · rw [if_pos h, if_pos h]
    · rw [if_neg h, if_neg h, ih]

theorem uniqueProfilesAux_lookup (students : List StudentRecord) :
    ∀ (m : List (String × Profile)) (k : String),
      lookupA k (uniqueProfilesAux m students) =
        match lookupA k m with
        | some v => some v
        | none =>
          Option.map mkProfile
            (students.find? (fun r => profileEligible r && (profileKey r == k))) := by
  induction students with
  | nil =>
    intro m k
    rw [uniqueProfilesAux]
    cases h : lookupA k m <;> simp [h]
  | cons s rest ih =>
    intro m k
    rw [uniqueProfilesAux]
    by_cases he : profileEligible s
    · rw [if_pos he]
      by_cases hc : (lookupA (profileKey s) m).isSome
      · rw [if_pos hc, ih]
        by_cases hk : profileKey s = k
        · subst hk
          obtain ⟨v, hv⟩ := Option.isSome_iff_exists.mp hc
          rw [hv]
        · have hbk : (profileKey s == k) = false := by simp [hk]
          simp only [List.find?, he, hbk, Bool.true_and]
      · rw [Option.not_isSome_iff_eq_none] at hc
        rw [if_neg (by simp [hc]), ih, lookupA_append]
        by_cases hk : profileKey s = k
        · subst hk
          rw [hc]
          have h1 : lookupA (profileKey s) [(profileKey s, mkProfile s)] = some (mkProfile s) := by
            rw [lookupA, if_pos rfl]
          simp only [h1, List.find?, he, beq_self_eq_true, Bool.true_and]
          rfl
        · have h0 : lookupA k [(profileKey s, mkProfile s)] = none := by
            rw [lookupA, if_neg (fun h => hk h.symm)]
            rfl
          have hbk : (profileKey s == k) = false := by simp [hk]
          cases hKm : lookupA k m <;>
            simp only [h0, List.find?, he, hbk, Bool.true_and]
    · rw [if_neg he, ih]
      have hp : (profileEligible s && (profileKey s == k)) = false := by
        simp [he]
      simp only [List.find?, hp]

/-- **C6.** Unique-profile deduplication is first-write-wins in original
order: the profile stored under a key is the one of the first eligible record
with that key; in particular two records with identical name, age and team
fields and (distinct) valid check-in dates yield exactly one profile carrying
the first record's demographics. -/
theorem uniqueProfiles_firstWriteWins :
    (∀ students k, lookupA k (uniqueProfiles students) =
      Option.map mkProfile
        (students.find? (fun r => profileEligible r && (profileKey r == k)))) ∧
    (∀ r1 r2 : StudentRecord, profileEligible r1 = true →
      profileName r1 = profileName r2 → r1.age = r2.age → r1.teamName = r2.teamName →
      r1.teamNumber = r2.teamNumber → (r2.checkInDate).isSome = true →
      r1.checkInDate ≠ r2.checkInDate →
      uniqueProfiles [r1, r2] = [(profileKey r1, mkProfile r1)]) := by
  constructor
  · intro students k
    rw [uniqueProfiles, uniqueProfilesAux_lookup]
    rfl
  · intro r1 r2 he1 hname hage hteam hnum hci2 _hdiff
    have hkey : profileKey r2 = profileKey r1 := by
      rw [profileKey, profileKey, hname, hage, hteam, hnum]
    have he2 : profileEligible r2 = true := by
      rw [profileEligible] at he1 ⊢
      rw [hkey, ← hname]
      simp only [Bool.and_eq_true, decide_eq_true_eq] at he1 ⊢
      exact ⟨⟨he1.1.1, hci2⟩, he1.2⟩
    rw [uniqueProfiles, uniqueProfilesAux, if_pos he1,
      if_neg (by rw [lookupA]; exact Bool.false_ne_true)]
    rw [uniqueProfilesAux, if_pos he2, hkey,
      if_pos (by rw [List.nil_append, lookupA, if_pos rfl]; rfl)]
    rw [uniqueProfilesAux, List.nil_append]

/-- Witness for C6: two same-identity records with different check-in dates
collapse to one profile with the first record's demographics. -/
theorem uniqueProfiles_firstWriteWins_witness :
    uniqueProfiles
        [{ studentName := some "Bo", age := some 9, teamName := some "T",
            teamNumber := some "2", county := some "A", checkInDate := some 100 },
          { studentName := some "Bo", age := some 9, teamName := some "T",
            teamNumber := some "2", county := some "B", checkInDate := some 200 }] =
      [(profileKey { studentName := some "Bo", age := some 9, teamName := some "T",
                     teamNumber := some "2", county := some "A", checkInDate := some 100 },
        mkProfile { studentName := some "Bo", age := some 9, teamName := some "T",
                    teamNumber := some "2", county := some "A", checkInDate := some 100 })] :=
  uniqueProfiles_firstWriteWins.2
    { studentName := some "Bo", age := some 9, teamName := some "T",
      teamNumber := some "2", county := some "A", checkInDate := some 100 }
    { studentName := some "Bo", age := some 9, teamName := some "T",
      teamNumber := some "2", county := some "B", checkInDate := some 200 }
    (by decide) (by decide) rfl rfl rfl (by decide) (by decide)

/-- **C2 counterexample.** The profile key is *not* a fully lowercased
composite: the team name enters the key verbatim, so two eligible records
whose fields differ only in the letter case of the team name map to distinct
keys and yield two profiles instead of one. -/
theorem profileKey_teamName_case_counterexample :
    profileKey ({ studentName := some "Ann", age := some 10, teamName := some "Red",
                  teamNumber := some "1", checkInDate := some 0 } : StudentRecord) ≠
      profileKey ({ studentName := some "Ann", age := some 10, teamName := some "red",
                    teamNumber := some "1", checkInDate := some 0 } : StudentRecord) ∧
    (uniqueProfiles
        [{ studentName := some "Ann", age := some 10, teamName := some "Red",
            teamNumber := some "1", checkInDate := some 0 },
          { studentName := some "Ann", age := some 10, teamName := some "red",
            teamNumber := some "1", checkInDate := some 0 }]).length = 2 := by
  decide

theorem jsToLowerStr_eq_empty {s : String} (h : jsToLowerStr s = "") : s = "" := by
  have hd : (jsToLowerStr s).data = [] := by rw [h]
  rw [jsToLowerStr] at hd
  have hmap : s.data.map jsToLower = [] := hd
  rcases s with ⟨l⟩
  cases l with
  | nil => rfl
  | cons c r => exact List.noConfusion hmap

/-- **C2 amended.** The profile key lowercases only the student name (age and
team number have no letter case; the team name enters verbatim): two eligible
records whose names agree up to letter case and whose age, team name and team
number are identical map to the same key and yield a single profile. -/
theorem profileKey_lowercases_name_only :
    ∀ r1 r2 : StudentRecord, profileEligible r1 = true →
      (r2.checkInDate).isSome = true →
      jsToLowerStr (profileName r1) = jsToLowerStr (profileName r2) →
      r1.age = r2.age → r1.teamName = r2.teamName → r1.teamNumber = r2.teamNumber →
      profileKey r1 = profileKey r2 ∧ (uniqueProfiles [r1, r2]).length = 1 := by
  intro r1 r2 he1 hci2 hlow hage hteam hnum
  have hkey : profileKey r1 = profileKey r2 := by
    rw [profileKey, profileKey, hlow, hage, hteam, hnum]
  refine ⟨hkey, ?_⟩
  have hname2 : profileName r2 ≠ "" := by
    intro h2
    have h1 : profileName r1 = "" := by
      apply jsToLowerStr_eq_empty
      rw [hlow, h2]
      rfl
    rw [profileEligible] at he1
    simp only [Bool.and_eq_true, decide_eq_true_eq] at he1
    exact he1.1.1 h1
  have he2 : profileEligible r2 = true := by
    rw [profileEligible] at he1 ⊢
    rw [← hkey]
    simp only [Bool.and_eq_true, decide_eq_true_eq] at he1 ⊢
    exact ⟨⟨hname2, hci2⟩, he1.2⟩
  rw [uniqueProfiles, uniqueProfilesAux, if_pos he1,
    if_neg (by rw [lookupA]; exact Bool.false_ne_true)]
  rw [uniqueProfilesAux, if_pos he2, ← hkey,
    if_pos (by rw [List.nil_append, lookupA, if_pos rfl]; rfl)]
  rw [uniqueProfilesAux, List.nil_append]
  rfl

/-- Witness for the amended C2: `"ANN"` and `"ann"` with the same team fields
share one profile key. -/
theorem profileKey_lowercases_name_only_witness :
    profileKey ({ studentName := some "ANN", age := some 10, teamName := some "Red",
                  teamNumber := some "1", checkInDate := some 0 } : StudentRecord) =
      profileKey ({ studentName := some "ann", age := some 10, teamName := some "Red",
                    teamNumber := some "1", checkInDate := some 0 } : StudentRecord) ∧
    (uniqueProfiles
        [{ studentName := some "ANN", age := some 10, teamName := some "Red",
            teamNumber := some "1", checkInDate := some 0 },
          { studentName := some "ann", age := some 10, teamName := some "Red",
            teamNumber := some "1", checkInDate := some 0 }]).length = 1 :=
  profileKey_lowercases_name_only
    { studentName := some "ANN", age := some 10, teamName := some "Red",
      teamNumber := some "1", checkInDate := some 0 }
    { studentName := some "ann", age := some 10, teamName := some "Red",
      teamNumber := some "1", checkInDate := some 0 }
    (by decide) (by decide) (by decide) rfl rfl rfl

/-! ## C4: active check-ins -/

theorem lookupA_setA {κ α : Type} [DecidableEq κ] (m : List (κ × α)) (q k : κ) (v : α) :
    lookupA q (setA m k v) = if q = k then some v else lookupA q m := by
  induction m with
  | nil => rfl
  | cons p rest ih =>
    obtain ⟨k2, v2⟩ := p
    rw [setA]
    by_cases h2 : k = k2
    · subst h2
      simp only [if_pos rfl, lookupA]
      by_cases hq : q = k
      · simp only [if_pos hq]
      · simp only [if_neg hq]
    · simp only [if_neg h2, lookupA, ih]
      by_cases hq : q = k2
      · have hqk : q ≠ k := fun h => h2 (h.symm.trans hq)
        simp only [if_pos hq, if_neg hqk]
      · simp only [if_neg hq]

/-- One step of the per-key selection: a new qualifying record displaces the
current entry exactly under the source's displacement test. -/
def stepEntry (acc : Option Entry) (r : StudentRecord) : Option Entry :=
  match acc with
  | none => some (mkEntry r)
  | some e => if displaces r.checkInDate e.checkInDate then some (mkEntry r) else acc

theorem activeCheckInsAux_lookup (students : List StudentRecord) :
    ∀ (m : List (String × Entry)) (k : String),
      lookupA k (activeCheckInsAux m students) =
        (students.filter (fun r => activeQualifies r && (recordId r == k))).foldl
          stepEntry (lookupA k m) := by
  induction students with
  | nil =>
    intro m k
    rw [activeCheckInsAux]
    rfl
  | cons r rest ih =>
    intro m k
    rw [activeCheckInsAux]
    by_cases hq : activeQualifies r
    · rw [if_pos hq]
      cases hex : lookupA (recordId r) m with
      | none =>
        show lookupA k (activeCheckInsAux (setA m (recordId r) (mkEntry r)) rest) = _
        rw [ih]
        by_cases hk : recordId r = k
        · subst hk
          rw [List.filter_cons, if_pos (by simp [hq]), List.foldl_cons,
            lookupA_setA, if_pos rfl]
          have hstep : stepEntry (lookupA (recordId r) m) r = some (mkEntry r) := by
            rw [hex, stepEntry]
          rw [hstep]
        · rw [List.filter_cons, if_neg (by simp [hk]),
            lookupA_setA, if_neg (fun h => hk h.symm)]
      | some ex =>
        show lookupA k (if displaces r.checkInDate ex.checkInDate then
            activeCheckInsAux (setA m (recordId r) (mkEntry r)) rest
          else activeCheckInsAux m rest) = _
        by_cases hd : displaces r.checkInDate ex.checkInDate
        · rw [if_pos hd, ih]
          by_cases hk : recordId r = k
          · subst hk
            rw [List.filter_cons, if_pos (by simp [hq]), List.foldl_cons,
              lookupA_setA, if_pos rfl]
            have hstep : stepEntry (lookupA (recordId r) m) r = some (mkEntry r) := by
              rw [hex, stepEntry, if_pos hd]
            rw [hstep]
          · rw [List.filter_cons, if_neg (by simp [hk]),
              lookupA_setA, if_neg (fun h => hk h.symm)]
        · rw [if_neg hd, ih]
          by_cases hk : recordId r = k
          · subst hk
            rw [List.filter_cons, if_pos (by simp [hq]), List.foldl_cons]
            have hstep : stepEntry (lookupA (recordId r) m) r = lookupA (recordId r) m := by
              rw [hex, stepEntry, if_neg hd]
            rw [hstep]
          · rw [List.filter_cons, if_neg (by simp [hk])]
    · rw [if_neg hq, ih]
      rw [List.filter_cons, if_neg (by simp [hq])]

/-- **C4.** An active check-in entry exists for a key only if some record with
that key has `checkedIn === true` and `checkedOut !== true`; the entry
retained for a key is the left fold of the source's displacement rule (dated
displaces undated, strictly later displaces earlier, ties keep the earlier
record) over the qualifying records in order; in particular for two records
sharing email `"a@b.com"` with check-in dates 2024-01-01 and 2024-01-05, the
retained entry carries 2024-01-05. -/
theorem activeCheckIns_latest :
    (∀ students k e, lookupA k (activeCheckInsMap students) = some e →
      ∃ r, r ∈ students ∧ r.checkedIn = some true ∧ r.checkedOut ≠ some true ∧
        recordId r = k) ∧
    (∀ students k, lookupA k (activeCheckInsMap students) =
      (students.filter (fun r => activeQualifies r && (recordId r == k))).foldl
        stepEntry none) ∧
    lookupA "a@b.com" (activeCheckInsMap
        [{ studentName := some "Ann", email := some "a@b.com", checkedIn := some true,
           checkedOut := some false, checkInDate := some 1704067200000 },
         { studentName := some "Ann", email := some "a@b.com", checkedIn := some true,
           checkedOut := some false, checkInDate := some 1704412800000 }]) =
      some { id := "a@b.com", name := "Ann", email := some "a@b.com",
             checkInDate := some 1704412800000 } := by
  have hB : ∀ students k, lookupA k (activeCheckInsMap students) =
      (students.filter (fun r => activeQualifies r && (recordId r == k))).foldl
        stepEntry none := by
    intro students k
    rw [activeCheckInsMap, activeCheckInsAux_lookup]
    rfl
  refine ⟨?_, hB, by decide⟩
  intro students k e h
  rw [hB] at h
  cases hl : students.filter (fun r => activeQualifies r && (recordId r == k)) with
  | nil =>
    rw [hl] at h
    exact Option.noConfusion h
  | cons r t =>
    have hr : r ∈ students.filter (fun r => activeQualifies r && (recordId r == k)) := by
      rw [hl]
      exact List.mem_cons_self r t
    have hm := List.mem_filter.mp hr
    have hpred := hm.2
    simp only [Bool.and_eq_true, beq_iff_eq] at hpred
    have hqual := hpred.1
    rw [activeQualifies] at hqual
    simp only [Bool.and_eq_true, beq_iff_eq, Bool.not_eq_true',
      decide_eq_true_eq] at hqual
    exact ⟨r, hm.1, hqual.1.1, beq_eq_false_iff_ne.mp hqual.1.2, hpred.2⟩

/-- Witness for C4: the existence direction at the concrete example. -/
theorem activeCheckIns_latest_witness :
    ∃ r, r ∈ [({ studentName := some "Ann", email := some "a@b.com",
                 checkedIn := some true, checkedOut := some false,
                 checkInDate := some 1704412800000 } : StudentRecord)] ∧
      r.checkedIn = some true ∧ r.checkedOut ≠ some true ∧ recordId r = "a@b.com" :=
  activeCheckIns_latest.1
    [{ studentName := some "Ann", email := some "a@b.com", checkedIn := some true,
       checkedOut := some false, checkInDate := some 1704412800000 }]
    "a@b.com"
    { id := "a@b.com", name := "Ann", email := some "a@b.com",
      checkInDate := some 1704412800000 }
    (by decide)

/-! ## C1: weekly activity buckets -/

/-- **C1 (code behavior).** The weekly buckets are anchored on **Monday**, not
Sunday: the `getUTCDay() || 7` / `+ 1 - dayNum` arithmetic of
`getWeekRange`/`weekStartMs` moves every date back to the preceding Monday
(ISO-week style), despite the source's own comments saying "set to Sunday".
A check-in on Wednesday 2024-01-03 lands in the bucket labeled
`"1/1/2024 - 1/7/2024"` (Monday through Sunday), not the claimed
`"12/31/2023 - 1/6/2024"`, and one on Tuesday 2024-01-09 lands in
`"1/8/2024 - 1/14/2024"`, not `"1/7/2024 - 1/13/2024"`. -/
theorem weekCounts_monday_anchored :
    weekCounts [{ checkInDate := some 1704283200000 }] = [("1/1/2024 - 1/7/2024", 1)] ∧
    weekCounts [{ checkInDate := some 1704801600000 }] = [("1/8/2024 - 1/14/2024", 1)] ∧
    getUTCDay 1704283200000 = 3 ∧
    getWeekRange 1704283200000 ≠ "12/31/2023 - 1/6/2024" ∧
    getWeekRange 1704801600000 ≠ "1/7/2024 - 1/13/2024" := by
  decide

end Jsac
